import Mathlib

set_option maxRecDepth 8000

/-!
A verification development for the `py-meltysynth` SoundFont synthesizer.

The definitions below are a shallow embedding of the relevant parts of
`meltysynth.py`.  Python's arbitrary-precision integers are modelled as `Int`
(or `Nat` where the source value is always non-negative), Python's
two's-complement bitwise operators on `Int` are `Int.land` / `Int.lor`
(which implement exactly Python's semantics for arbitrary-precision
two's-complement integers), Python floats are modelled as `ℚ` where only
field arithmetic is involved, and Python exceptions are modelled with
`Except` / `Option`.
-/

namespace MeltySynth

/-! ### The MIDI channel state (`_Channel` in meltysynth.py)

One record field per mutable attribute of the Python class.  The Python class
only creates the attribute `_vrpn` the first time `set_rpn_fine` runs (the
assignment target there is `self._vrpn`, not `self._rpn`); we carry it as an
ordinary field, defaulting to `0`, so that the write can be represented.
`_pitch_bend` is a float in the source; it is only ever set to `0` or to
`(1/8192) * ((v1 | v2 << 7)) - 8192)`, which is exact rational arithmetic.
-/

structure Channel where
  bank_number : Int
  patch_number : Int
  modulation : Int
  volume : Int
  pan : Int
  expression : Int
  hold_pedal : Bool
  reverb_send : Int
  chorus_send : Int
  rpn : Int
  vrpn : Int
  pitch_bend_range : Int
  coarse_tune : Int
  fine_tune : Int
  pitch_bend : ℚ
  deriving Repr, DecidableEq

namespace Channel

/-- `_Channel.reset` (meltysynth.py lines 2563-2581). -/
def reset (is_percussion_channel : Bool) : Channel where
  bank_number := if is_percussion_channel then 128 else 0
  patch_number := 0
  modulation := 0
  volume := 100 <<< 7
  pan := 64 <<< 7
  expression := 127 <<< 7
  hold_pedal := false
  reverb_send := 40
  chorus_send := 0
  rpn := -1
  vrpn := 0
  pitch_bend_range := 2 <<< 7
  coarse_tune := 0
  fine_tune := 8192
  pitch_bend := 0

/-- `_Channel.reset_all_controllers` (meltysynth.py lines 2583-2590). -/
def reset_all_controllers (c : Channel) : Channel :=
  { c with
    modulation := 0
    expression := 127 <<< 7
    hold_pedal := false
    rpn := -1
    pitch_bend := 0 }

/-- `_Channel.set_rpn_coarse` (line 2634-2635):
`self._rpn = (self._rpn & 0x7F) | (value << 7)`. -/
def set_rpn_coarse (c : Channel) (value : Int) : Channel :=
  { c with rpn := Int.lor (Int.land c.rpn 0x7F) (value <<< 7) }

/-- `_Channel.set_rpn_fine` (line 2637-2638).  The Python source assigns to
`self._vrpn`, not `self._rpn`:
`self._vrpn = (self._rpn & 0xFF80) | value`. -/
def set_rpn_fine (c : Channel) (value : Int) : Channel :=
  { c with vrpn := Int.lor (Int.land c.rpn 0xFF80) value }

/-- `_Channel.data_entry_coarse` (lines 2640-2652): dispatches on `self._rpn`. -/
def data_entry_coarse (c : Channel) (value : Int) : Channel :=
  if c.rpn = 0 then
    { c with pitch_bend_range := Int.lor (Int.land c.pitch_bend_range 0x7F) (value <<< 7) }
  else if c.rpn = 1 then
    { c with fine_tune := Int.lor (Int.land c.fine_tune 0x7F) (value <<< 7) }
  else if c.rpn = 2 then
    { c with coarse_tune := value - 64 }
  else
    c

/-- `_Channel.data_entry_fine` (lines 2654-2663): dispatches on `self._rpn`. -/
def data_entry_fine (c : Channel) (value : Int) : Channel :=
  if c.rpn = 0 then
    { c with pitch_bend_range := Int.lor (Int.land c.pitch_bend_range 0xFF80) value }
  else if c.rpn = 1 then
    { c with fine_tune := Int.lor (Int.land c.fine_tune 0xFF80) value }
  else
    c

end Channel

/-! ### Loop modes (`LoopMode` and `InstrumentRegion.sample_modes`)

`LoopMode` is a Python `IntEnum` with members `NO_LOOP = 0`, `CONTINUOUS = 1`
and `LOOP_UNTIL_NOTE_OFF = 3`.  Calling the enum constructor `LoopMode(v)`
on any other integer raises `ValueError`; we model the constructor as a
partial function into `Option LoopMode`, `none` standing for the raise.
-/

inductive LoopMode where
  | NO_LOOP
  | CONTINUOUS
  | LOOP_UNTIL_NOTE_OFF
  deriving Repr, DecidableEq, Fintype

/-- The Python `IntEnum` constructor `LoopMode(v)`: members exist only at
values 0, 1 and 3; any other argument raises `ValueError` (`none`). -/
def LoopMode.ofInt (v : Int) : Option LoopMode :=
  if v = 0 then some .NO_LOOP
  else if v = 1 then some .CONTINUOUS
  else if v = 3 then some .LOOP_UNTIL_NOTE_OFF
  else none

/-- `InstrumentRegion.sample_modes` (meltysynth.py lines 1142-1148):

`LoopMode(gs[SAMPLE_MODES]) if gs[SAMPLE_MODES] != 2 else LoopMode.NO_LOOP`

applied to the 16-bit integer stored in the `SAMPLE_MODES` generator slot.
`none` models the `ValueError` raised by the enum constructor. -/
def sample_modes (g : Int) : Option LoopMode :=
  if g ≠ 2 then LoopMode.ofInt g else some .NO_LOOP

/-! ### The binary reader (`_BinaryReaderEx`)

A byte stream is a `List Nat` whose elements are below 256.  Python's
`reader.read(1)` at end of stream returns the empty bytes object, and
`int.from_bytes(b"") = 0`, so reading past the end yields the byte 0. -/

/-- `_BinaryReaderEx.read_uint8`: one byte, or 0 at end of stream. -/
def read_uint8 : List Nat → Nat × List Nat
  | [] => (0, [])
  | b :: rest => (b, rest)

/-- The `while` loop of `_BinaryReaderEx.read_int_variable_length`
(meltysynth.py lines 45-61), with the accumulator `acc` and the continuation
counter `count` made explicit.  The source raises when `count` reaches 4
after being incremented; `count` only ever counts up from 0 in steps of 1,
so the test `count + 1 == 4` is written `4 ≤ count + 1` to make termination
evident. -/
def read_int_variable_length_go (bs : List Nat) (acc : Nat) (count : Nat) :
    Except String (Nat × List Nat) :=
  let value := (read_uint8 bs).1
  let rest := (read_uint8 bs).2
  let acc2 := (acc <<< 7) ||| (value &&& 127)
  if value &&& 128 = 0 then .ok (acc2, rest)
  else if 4 ≤ count + 1 then
    .error "The length of the value must be equal to or less than 4."
  else read_int_variable_length_go rest acc2 (count + 1)
termination_by 4 - count
decreasing_by omega

/-- `_BinaryReaderEx.read_int_variable_length`: returns the decoded value and
the remaining stream, or an error when the first four bytes all carry the
continuation bit. -/
def read_int_variable_length (bs : List Nat) : Except String (Nat × List Nat) :=
  read_int_variable_length_go bs 0 0

/-! ### The voice pool counter (`_VoiceCollection`)

The polyphony claim is about `_active_voice_count` against the fixed pool
capacity (`len(self._voices)`, set once to `maximum_polyphony`).  Each public
entry point of `_VoiceCollection` moves the counter as follows
(meltysynth.py lines 3055-3113):

* `request_new`: when the region has a non-zero exclusive class and an
  active voice with the same class and channel exists, that voice is reused
  and the counter does not move; otherwise the counter is incremented only
  when it is below the capacity; otherwise a voice is stolen and the counter
  does not move.  Whether the exclusive-class scan hits depends on the
  voices' fields, so it enters the model as a boolean input, covering both
  outcomes.
* `process`: each active voice whose `process()` returns false is removed by
  a swap with the last active voice and a decrement; `dead` is the number of
  voices removed during the sweep.
* `clear`: the counter is reset to zero.
-/

inductive VoiceOp where
  | request_new (exclusive_hit : Bool)
  | process (dead : Nat)
  | clear
  deriving Repr, DecidableEq

/-- Effect of one `_VoiceCollection` entry point on `_active_voice_count`. -/
def VoiceOp.step (capacity : Nat) (count : Nat) : VoiceOp → Nat
  | .request_new exclusive_hit =>
      if exclusive_hit then count
      else if count < capacity then count + 1
      else count
  | .process dead => count - dead
  | .clear => 0

/-- The counter after a sequence of `_VoiceCollection` calls, starting from
the freshly constructed collection (`_active_voice_count = 0`). -/
def runVoiceOps (capacity : Nat) (ops : List VoiceOp) : Nat :=
  ops.foldl (fun count op => op.step capacity count) 0

/-! ### Voice stealing (`_VoiceCollection.request_new`, lines 3075-3094)

Only the two fields compared by the stealing loop are modelled. -/

structure VoiceInfo where
  priority : ℚ
  voice_length : Nat
  deriving Repr, DecidableEq, Inhabited

/-- The stealing loop of `request_new`: scans the active voices carrying the
current `candidate` and `lowest_priority`. -/
def stealLoop : List VoiceInfo → VoiceInfo → ℚ → VoiceInfo
  | [], candidate, _ => candidate
  | v :: rest, candidate, lowest =>
    if v.priority < lowest then stealLoop rest v v.priority
    else if v.priority = lowest then
      if v.voice_length > candidate.voice_length then stealLoop rest v lowest
      else stealLoop rest candidate lowest
    else stealLoop rest candidate lowest

/-- The stealing branch of `request_new`: `candidate` starts at
`self._voices[0]` (the pool is non-empty whenever this branch runs, since it
requires `_active_voice_count = len(self._voices) = maximum_polyphony ≥ 8`)
and `lowest_priority` starts at `1000000.0`. -/
def steal (voices : List VoiceInfo) : VoiceInfo :=
  stealLoop voices (voices.headD default) 1000000

/-! ### Preset selection (`Synthesizer.__init__` lines 3230-3245 and
`Synthesizer.note_on` lines 3357-3393)

A preset is identified here by its position in `sound_font.presets`; only
its bank and patch numbers (both read as `uint16` from the `phdr` chunk)
matter to the selection logic. -/

/-- The key under which `Synthesizer.__init__` files a preset:
`(preset.bank_number << 16) | preset.patch_number`. -/
def preset_id (p : Nat × Nat) : Nat := (p.1 <<< 16) ||| p.2

/-- The dictionary `_preset_lookup` built by `Synthesizer.__init__`: presets
are inserted in order, later presets overwriting earlier ones with the same
id.  The dictionary is modelled as its lookup function. -/
def preset_lookup (presets : List (Nat × Nat)) : Nat → Option Nat :=
  presets.enum.foldl
    (fun d ip => fun id => if id = preset_id ip.2 then some ip.1 else d id)
    (fun _ => none)

/-- The `_default_preset` computation of `Synthesizer.__init__`: the running
minimum starts at `10000000000` and a preset is recorded whenever its id is
strictly below the running minimum.  `none` models the attribute never being
assigned (the soundfont has no preset with id below `10000000000`). -/
def default_preset (presets : List (Nat × Nat)) : Option Nat :=
  (presets.enum.foldl
    (fun acc ip =>
      if preset_id ip.2 < acc.1 then (preset_id ip.2, some ip.1) else acc)
    (10000000000, (none : Option Nat))).2

/-- The same fold with the enumeration start and accumulator exposed, used
to reason about `default_preset` by induction. -/
def defaultFold (l : List (Nat × Nat)) (n : Nat) (acc : Nat × Option Nat) :
    Nat × Option Nat :=
  (List.enumFrom n l).foldl
    (fun acc ip =>
      if preset_id ip.2 < acc.1 then (preset_id ip.2, some ip.1) else acc)
    acc

/-- The preset-selection logic of `Synthesizer.note_on` (lines 3367-3385):
exact id, then the GM fallback id (`patch` when `bank < 128`, else
`128 << 16`), then the default preset. -/
def select_preset (presets : List (Nat × Nat)) (bank patch : Nat) : Option Nat :=
  match preset_lookup presets ((bank <<< 16) ||| patch) with
  | some i => some i
  | none =>
    let gm_preset_id := if bank < 128 then patch else 128 <<< 16
    match preset_lookup presets gm_preset_id with
    | some i => some i
    | none => default_preset presets

/-! ### Block rendering (`Synthesizer.render`, lines 3430-3466)

Samples are modelled as `ℚ`.  The synthesizer state relevant to `render` is
the read cursor `_block_read` into the internal block pair and the internal
blocks themselves; the effect of `_render_block` (voice processing and
mixing) is abstracted as an oracle `blocks : Nat → List ℚ × List ℚ` giving
the contents of the internal block pair after the `n`-th `_render_block`
call, with `block_count` counting the calls made so far.  Output buffers are
`List ℚ`; writing at an index is `List.set`, which (like the Python
assignment `left[i] = ...` for `i` in range) leaves the length unchanged. -/

structure RenderResult where
  left : List ℚ
  right : List ℚ
  block_read : Nat
  block_count : Nat
  deriving Repr, DecidableEq

/-- The inner copy loop of `render`:
`for t in range(n): dst[dst_pos + t] = src[src_pos + t]`. -/
def writeRange (dst : List ℚ) (dst_pos : Nat) (src : List ℚ) (src_pos : Nat) :
    Nat → List ℚ
  | 0 => dst
  | n + 1 => writeRange (dst.set dst_pos (src.getD src_pos 0)) (dst_pos + 1) src (src_pos + 1) n

/-- The `while wrote < count` loop of `Synthesizer.render`.  `bl`/`br` are
the current internal blocks (`_block_left`/`_block_right`).  When
`block_size = 0` the Python loop would never make progress; the guard
`rem = 0` stops instead (unreachable for real synthesizers, whose settings
force `8 ≤ block_size ≤ 1024`). -/
def renderLoop (block_size : Nat) (blocks : Nat → List ℚ × List ℚ)
    (offset count : Nat) (wrote : Nat) (block_read block_count : Nat)
    (bl br left right : List ℚ) : RenderResult :=
  if h : wrote < count then
    let refreshed : Nat × Nat × List ℚ × List ℚ :=
      if block_read = block_size then
        (0, block_count + 1, (blocks block_count).1, (blocks block_count).2)
      else (block_read, block_count, bl, br)
    match refreshed with
    | (rd, bc, xl, xr) =>
      let src_rem := block_size - rd
      let dst_rem := count - wrote
      let rem := min src_rem dst_rem
      if h2 : rem = 0 then
        RenderResult.mk left right rd bc
      else
        renderLoop block_size blocks offset count (wrote + rem) (rd + rem) bc xl xr
          (writeRange left (offset + wrote) xl rd rem)
          (writeRange right (offset + wrote) xr rd rem)
  else
    RenderResult.mk left right block_read block_count
termination_by count - wrote
decreasing_by omega

/-- `Synthesizer.render(left, right, offset?, count?)`: the argument checks
followed by the copy loop.  The two `raise` statements become `.error`; they
fire before anything is written or any state moves, which the embedding
reflects by returning the error outright.  The source defaults `offset` to 0
when absent, raises when `offset` was given but `count` was not, and then
defaults `count` to `len(left)`; the second check below is exactly the
raising condition and the `getD`s are the two defaults. -/
def render (block_size : Nat) (blocks : Nat → List ℚ × List ℚ)
    (block_read block_count : Nat) (bl br : List ℚ)
    (left right : List ℚ) (offset count : Option Nat) :
    Except String RenderResult :=
  if left.length ≠ right.length then
    .error "The output buffers for the left and right must be the same length."
  else if offset.isSome ∧ count = none then
    .error "count must be set if offset is set."
  else
    .ok (renderLoop block_size blocks (offset.getD 0) (count.getD left.length) 0
      block_read block_count bl br left right)

/-! ### Track merging (`MidiFile._merge_tracks`, lines 3740-3786)

A track is the pair of lists produced by `_read_track`, zipped: each event
is a message with its absolute tick.  Messages are modelled by what
`_merge_tracks` inspects: the message type and, for tempo-change messages,
the 24-bit microseconds-per-quarter value from which the `tempo` property
computes `60000000.0 / value` (the three stored bytes reassemble to exactly
that value). -/

inductive MidiMsg where
  | normal (channel command data1 data2 : Nat)
  | tempo_change (us_per_quarter : Nat)
  | end_of_track
  deriving Repr, DecidableEq

abbrev Track := List (MidiMsg × Int)

/-- Sum of the numbers of pending events over all tracks; each iteration of
the merge loop consumes exactly one event, so this bounds the iteration
count. -/
def sumLen (tracks : List Track) : Nat := (tracks.map List.length).sum

/-- The minimum scan at the top of the merge loop (lines 3757-3765):
`min_tick` starts at `10000000000` and `min_index` at `-1`; `ch` is the
track index of the first element of the remaining list.  A track whose
events are exhausted (here: an empty list) is skipped. -/
def scanMinGo : List Track → Nat → Int → Int → Int × Int
  | [], _, min_tick, min_index => (min_tick, min_index)
  | tr :: rest, ch, min_tick, min_index =>
    match tr with
    | [] => scanMinGo rest (ch + 1) min_tick min_index
    | (_, tick) :: _ =>
      if tick < min_tick then scanMinGo rest (ch + 1) tick (ch : Int)
      else scanMinGo rest (ch + 1) min_tick min_index

def scanMin (tracks : List Track) : Int × Int := scanMinGo tracks 0 10000000000 (-1)

/-- The `while True` merge loop, by recursion on the number of remaining
iterations (`mergeTracks` below supplies `sumLen tracks`, which is exact:
one event is consumed per iteration).  The `[]` inner arm is unreachable
because `scanMin` only ever returns the index of a non-empty track. -/
def mergeGo (resolution : Int) : Nat → List Track → Int → ℚ → ℚ →
    List MidiMsg × List ℚ
  | 0, _, _, _, _ => ([], [])
  | fuel + 1, tracks, current_tick, current_time, tempo =>
    let min_index := (scanMin tracks).2
    if min_index < 0 then ([], [])
    else
      match tracks.getD min_index.toNat [] with
      | [] => ([], [])
      | (message, next_tick) :: tl =>
        let delta_tick := next_tick - current_tick
        let delta_time := 60 / ((resolution : ℚ) * tempo) * (delta_tick : ℚ)
        let ct := current_tick + delta_tick
        let time := current_time + delta_time
        let tracks2 := tracks.set min_index.toNat tl
        match message with
        | .tempo_change us =>
          mergeGo resolution fuel tracks2 ct time (60000000 / (us : ℚ))
        | m =>
          let r := mergeGo resolution fuel tracks2 ct time tempo
          (m :: r.1, time :: r.2)

/-- `MidiFile._merge_tracks`: merged messages and their times, from
`current_tick = 0`, `current_time = 0.0`, `tempo = 120.0`. -/
def mergeTracks (resolution : Int) (tracks : List Track) :
    List MidiMsg × List ℚ :=
  mergeGo resolution (sumLen tracks) tracks 0 0 120

/-- The tick of a track's next pending event, when the track is not
exhausted. -/
def headTick (tr : Track) : Option Int := tr.head?.map Prod.snd

/-- Modelled from the spec: "repeatedly pick the track whose next event has
the smallest tick" — the first track whose pending head event carries the
minimal tick, or `none` when every track is exhausted. -/
def specNextTrack (tracks : List Track) : Option Nat :=
  match (tracks.filterMap headTick).min? with
  | none => none
  | some m => tracks.findIdx? (fun tr => headTick tr == some m)

/-- Modelled from the spec (§4.11 track merge): a running `current_tick`,
`current_time` and `tempo`; each step picks the track with the smallest next
tick, advances `current_time` by `(next_tick - current_tick) * 60 /
(resolution * tempo)`, lets tempo-change messages update `tempo` without
being emitted, and appends every other message paired with the current
time. -/
def specMergeGo (resolution : Int) : Nat → List Track → Int → ℚ → ℚ →
    List MidiMsg × List ℚ
  | 0, _, _, _, _ => ([], [])
  | fuel + 1, tracks, current_tick, current_time, tempo =>
    match specNextTrack tracks with
    | none => ([], [])
    | some i =>
      match tracks.getD i [] with
      | [] => ([], [])
      | (message, next_tick) :: tl =>
        let time := current_time +
          ((next_tick : ℚ) - (current_tick : ℚ)) * 60 / ((resolution : ℚ) * tempo)
        let tracks2 := tracks.set i tl
        match message with
        | .tempo_change us =>
          specMergeGo resolution fuel tracks2 next_tick time (60000000 / (us : ℚ))
        | m =>
          let r := specMergeGo resolution fuel tracks2 next_tick time tempo
          (m :: r.1, time :: r.2)

/-- Modelled from the spec: the whole merge, starting at tick 0, time 0 and
the initial tempo of 120 BPM. -/
def specMergeTracks (resolution : Int) (tracks : List Track) :
    List MidiMsg × List ℚ :=
  specMergeGo resolution (sumLen tracks) tracks 0 0 120

/-! ### Channel-index guards of the `Synthesizer` entry points
(lines 3262-3268, 3348-3350, 3357-3363)

Each of `process_midi_message`, `note_off` and `note_on` starts by checking
`0 <= channel < len(self._channels)` and returns without touching anything
when the check fails (`note_on` first turns zero-velocity calls into
`note_off`).  The synthesizer state is the channel list plus everything else
(voices, buffers, cursors), the latter abstracted as a type parameter; the
work performed after a passed guard is abstracted as a state transformer
argument, so the theorems below hold whatever that work does. -/

structure SynthState (V : Type) where
  channels : List Channel
  rest : V

/-- `Synthesizer.note_off` (lines 3348-3355): the guard, then the sweep over
active voices (abstracted as `body`). -/
def note_off {V : Type} (s : SynthState V) (channel : Int) (key : Int)
    (body : SynthState V → Int → SynthState V) : SynthState V :=
  if ¬(0 ≤ channel ∧ channel < (s.channels.length : Int)) then s
  else body s key

/-- `Synthesizer.note_on` (lines 3357-3393): zero velocity delegates to
`note_off`; then the guard; then the preset search and voice allocation
(abstracted as `body`). -/
def note_on {V : Type} (s : SynthState V) (channel key velocity : Int)
    (body : SynthState V → Int → Int → SynthState V)
    (off_body : SynthState V → Int → SynthState V) : SynthState V :=
  if velocity = 0 then note_off s channel key off_body
  else if ¬(0 ≤ channel ∧ channel < (s.channels.length : Int)) then s
  else body s key velocity

/-- `Synthesizer.process_midi_message` (lines 3262-3346): the guard, then
the dispatch on the command byte (abstracted as `body`). -/
def process_midi_message {V : Type} (s : SynthState V)
    (channel command data1 data2 : Int)
    (body : SynthState V → Int → Int → Int → SynthState V) : SynthState V :=
  if ¬(0 ≤ channel ∧ channel < (s.channels.length : Int)) then s
  else body s command data1 data2

/-! ## Theorems -/

/-- C1: the claim states that `_Channel.set_rpn_fine` edits the channel's
`rpn` field, leaving its low 7 bits equal to the incoming 7-bit value.  The
source instead assigns the computed value to the attribute `_vrpn` (a typo
for `_rpn`, called out in the repository's own design notes), so `rpn` is
never touched: for every channel and value the `rpn` field is unchanged,
and on a freshly reset channel (`rpn = -1`) an RPN Fine message carrying 5
leaves the low 7 bits of `rpn` at 127 (Python `(-1) % 128`), not 5, so the
following Data-Entry Coarse/Fine messages still dispatch on the stale
`rpn`. -/
theorem set_rpn_fine_never_edits_rpn :
    (∀ (c : Channel) (v : Int), (c.set_rpn_fine v).rpn = c.rpn) ∧
    ((Channel.reset false).set_rpn_fine 5).rpn = -1 ∧
    ((Channel.reset false).set_rpn_fine 5).rpn % 128 = 127 := by
  refine ⟨fun c v => rfl, rfl, by decide⟩

/-- C2, counterexample: the claim states that `sample_modes` returns a loop
mode without failing for every 16-bit `SAMPLE_MODES` value, mapping every
value other than 0, 1, 3 (including 2) to `NO_LOOP`.  At the stored value 4
the getter instead calls `LoopMode(4)`, which raises `ValueError` — it does
not return `NO_LOOP` (nor any other loop mode). -/
theorem sample_modes_raises_on_four :
    sample_modes 4 = none ∧ ∀ m : LoopMode, sample_modes 4 ≠ some m := by
  decide

/-- C2, amended: `sample_modes` maps 0, 1, 3 to `NO_LOOP`, `CONTINUOUS`,
`LOOP_UNTIL_NOTE_OFF`, maps the reserved value 2 to `NO_LOOP`, and raises
`ValueError` (returns no loop mode) on every other integer value. -/
theorem sample_modes_cases (g : Int) :
    sample_modes g =
      if g = 0 ∨ g = 2 then some .NO_LOOP
      else if g = 1 then some .CONTINUOUS
      else if g = 3 then some .LOOP_UNTIL_NOTE_OFF
      else none := by
  unfold sample_modes LoopMode.ofInt
  split_ifs <;> simp_all

/-- C3: `reset_all_controllers` leaves the fields backing volume, pan,
reverb send, chorus send, coarse tune and fine tune (and also bank, patch
and pitch-bend range) unchanged, and sets modulation to 0, expression to
`127 << 7`, the hold pedal to off, `rpn` to -1 and the pitch bend to 0. -/
theorem reset_all_controllers_frame (c : Channel) :
    (c.reset_all_controllers).volume = c.volume ∧
    (c.reset_all_controllers).pan = c.pan ∧
    (c.reset_all_controllers).reverb_send = c.reverb_send ∧
    (c.reset_all_controllers).chorus_send = c.chorus_send ∧
    (c.reset_all_controllers).coarse_tune = c.coarse_tune ∧
    (c.reset_all_controllers).fine_tune = c.fine_tune ∧
    (c.reset_all_controllers).modulation = 0 ∧
    (c.reset_all_controllers).expression = 127 <<< 7 ∧
    (c.reset_all_controllers).hold_pedal = false ∧
    (c.reset_all_controllers).rpn = -1 ∧
    (c.reset_all_controllers).pitch_bend = 0 ∧
    (c.reset_all_controllers).bank_number = c.bank_number ∧
    (c.reset_all_controllers).patch_number = c.patch_number ∧
    (c.reset_all_controllers).pitch_bend_range = c.pitch_bend_range :=
  ⟨rfl, rfl, rfl, rfl, rfl, rfl, rfl, rfl, rfl, rfl, rfl, rfl, rfl, rfl⟩

/-- One `_VoiceCollection` call keeps the counter within the capacity. -/
theorem VoiceOp.step_le (capacity count : Nat) (op : VoiceOp)
    (h : count ≤ capacity) : op.step capacity count ≤ capacity := by
  cases op with
  | request_new hit =>
    simp only [VoiceOp.step]
    split_ifs <;> omega
  | process dead => simp only [VoiceOp.step]; omega
  | clear => simp only [VoiceOp.step]; omega

/-- Folding any sequence of calls from a within-capacity counter stays
within capacity. -/
theorem runVoiceOps_invariant (capacity : Nat) (ops : List VoiceOp) :
    ∀ count, count ≤ capacity →
      ops.foldl (fun count op => op.step capacity count) count ≤ capacity := by
  induction ops with
  | nil => intro count h; simpa using h
  | cons op rest ih =>
    intro count h
    exact ih _ (VoiceOp.step_le capacity count op h)

/-- C4: with pool capacity `P` (`maximum_polyphony`), the active voice count
is at most `P` after any sequence of `_VoiceCollection` calls —
`request_new` (with or without an exclusive-class hit), `process` (removing
any number of dead voices) and `clear` — starting from the freshly built
pool.  `note_on`, `note_off`, `render` and `reset` only ever touch the
counter through these calls. -/
theorem active_voice_count_le_polyphony (capacity : Nat) (ops : List VoiceOp) :
    runVoiceOps capacity ops ≤ capacity :=
  runVoiceOps_invariant capacity ops 0 (Nat.zero_le _)

/-- A byte below 256 with its top bit set has a non-zero continuation bit. -/
theorem cont_bit_set : ∀ b : Nat, b < 256 → 128 ≤ b → b &&& 128 = 128 := by
  decide

/-- A byte below 128 has its continuation bit clear. -/
theorem cont_bit_clear : ∀ b : Nat, b < 128 → b &&& 128 = 0 := by
  decide

/-- The VLQ loop on a stream starting with continuation bytes `pre` (each
with the top bit set) followed by a terminating byte `last` (top bit
clear): it consumes exactly `pre ++ [last]` and folds each byte's low 7
bits into the accumulator. -/
theorem read_int_variable_length_go_ok (pre : List Nat) :
    ∀ (count acc last : Nat) (rest : List Nat),
      count + pre.length ≤ 3 →
      (∀ b ∈ pre, 128 ≤ b ∧ b < 256) →
      last < 128 →
      read_int_variable_length_go (pre ++ last :: rest) acc count =
        .ok ((pre ++ [last]).foldl (fun a b => (a <<< 7) ||| (b &&& 127)) acc,
             rest) := by
  induction pre with
  | nil =>
    intro count acc last rest _ _ hlast
    rw [read_int_variable_length_go]
    simp [read_uint8, cont_bit_clear last hlast]
  | cons b pre ih =>
    intro count acc last rest hcount hpre hlast
    obtain ⟨hb1, hb2⟩ := hpre b (List.mem_cons_self b pre)
    have hcont : b &&& 128 = 128 := cont_bit_set b hb2 hb1
    rw [read_int_variable_length_go]
    simp only [List.cons_append, read_uint8, hcont]
    have hc4 : ¬ 4 ≤ count + 1 := by simp at hcount; omega
    simp only [if_neg (by omega : ¬ (128 : Nat) = 0), if_neg hc4]
    rw [ih (count + 1) _ last rest (by simp at hcount ⊢; omega)
      (fun x hx => hpre x (List.mem_cons_of_mem b hx)) hlast]
    simp

/-- C8: reading a variable-length quantity accumulates 7 bits per byte,
high bit marking continuation.  Part one: any encoding of at most 4 bytes
(up to three continuation bytes followed by a terminating byte) succeeds,
returning the concatenation of the 7-bit groups — the fold that shifts the
accumulator left by 7 and ors in the byte's low 7 bits — and leaves the
rest of the stream untouched.  Part two: a stream whose first 4 bytes all
carry the continuation bit raises. -/
theorem read_int_variable_length_spec :
    (∀ (pre : List Nat) (last : Nat) (rest : List Nat),
      pre.length ≤ 3 →
      (∀ b ∈ pre, 128 ≤ b ∧ b < 256) →
      last < 128 →
      read_int_variable_length (pre ++ last :: rest) =
        .ok ((pre ++ [last]).foldl (fun a b => (a <<< 7) ||| (b &&& 127)) 0,
             rest)) ∧
    (∀ (b0 b1 b2 b3 : Nat) (rest : List Nat),
      (∀ b ∈ [b0, b1, b2, b3], 128 ≤ b ∧ b < 256) →
      read_int_variable_length (b0 :: b1 :: b2 :: b3 :: rest) =
        .error "The length of the value must be equal to or less than 4.") := by
  constructor
  · intro pre last rest hlen hpre hlast
    exact read_int_variable_length_go_ok pre 0 0 last rest (by omega) hpre hlast
  · intro b0 b1 b2 b3 rest hb
    have h0 := hb b0 (by simp)
    have h1 := hb b1 (by simp)
    have h2 := hb b2 (by simp)
    have h3 := hb b3 (by simp)
    rw [read_int_variable_length]
    rw [read_int_variable_length_go]
    simp only [read_uint8, cont_bit_set b0 h0.2 h0.1,
      if_neg (by omega : ¬ (128 : Nat) = 0), if_neg (by omega : ¬ 4 ≤ 0 + 1)]
    rw [read_int_variable_length_go]
    simp only [read_uint8, cont_bit_set b1 h1.2 h1.1,
      if_neg (by omega : ¬ (128 : Nat) = 0), if_neg (by omega : ¬ 4 ≤ 1 + 1)]
    rw [read_int_variable_length_go]
    simp only [read_uint8, cont_bit_set b2 h2.2 h2.1,
      if_neg (by omega : ¬ (128 : Nat) = 0), if_neg (by omega : ¬ 4 ≤ 2 + 1)]
    rw [read_int_variable_length_go]
    simp only [read_uint8, cont_bit_set b3 h3.2 h3.1,
      if_neg (by omega : ¬ (128 : Nat) = 0), if_pos (by omega : 4 ≤ 3 + 1)]

/-- Witness for C8: the 3-byte encoding `0x81 0x80 0x05` decodes to
`(1 << 14) | 5 = 16389` with the rest of the stream preserved, and four
continuation bytes `0x81 0x81 0x81 0x81` raise. -/
theorem read_int_variable_length_spec_witness :
    (read_int_variable_length [0x81, 0x80, 0x05, 0xAA] =
      .ok (16389, [0xAA])) ∧
    (read_int_variable_length [0x81, 0x81, 0x81, 0x81, 0x05] =
      .error "The length of the value must be equal to or less than 4.") := by
  constructor
  · have h := read_int_variable_length_spec.1 [0x81, 0x80] 0x05 [0xAA]
      (by decide) (by decide) (by decide)
    simpa using h
  · exact read_int_variable_length_spec.2 0x81 0x81 0x81 0x81 [0x05] (by decide)

/-- The stealing loop, once `lowest_priority` equals the candidate's
priority, returns a voice drawn from the candidate or the remaining list
whose priority is minimal and which, among equal-priority voices seen, has
the greatest `voice_length`. -/
theorem stealLoop_invariant (rest : List VoiceInfo) :
    ∀ candidate : VoiceInfo,
      (stealLoop rest candidate candidate.priority = candidate ∨
        stealLoop rest candidate candidate.priority ∈ rest) ∧
      (stealLoop rest candidate candidate.priority).priority ≤ candidate.priority ∧
      (∀ v ∈ rest,
        (stealLoop rest candidate candidate.priority).priority ≤ v.priority) ∧
      ((stealLoop rest candidate candidate.priority).priority =
          candidate.priority →
        candidate.voice_length ≤
          (stealLoop rest candidate candidate.priority).voice_length) ∧
      (∀ v ∈ rest,
        v.priority = (stealLoop rest candidate candidate.priority).priority →
        v.voice_length ≤
          (stealLoop rest candidate candidate.priority).voice_length) := by
  induction rest with
  | nil =>
    intro candidate
    refine ⟨Or.inl rfl, le_refl _, ?_, fun _ => le_refl _, ?_⟩ <;> simp
  | cons v rest ih =>
    intro candidate
    by_cases hlt : v.priority < candidate.priority
    · have hstep : stealLoop (v :: rest) candidate candidate.priority =
          stealLoop rest v v.priority := by
        rw [stealLoop, if_pos hlt]
      obtain ⟨hmem, hle, hmin, htie, hties⟩ := ih v
      rw [hstep]
      refine ⟨?_, ?_, ?_, ?_, ?_⟩
      · rcases hmem with h | h
        · exact Or.inr (List.mem_cons.mpr (Or.inl h))
        · exact Or.inr (List.mem_cons_of_mem v h)
      · exact le_of_lt (lt_of_le_of_lt hle hlt)
      · intro w hw
        rcases List.mem_cons.mp hw with h | h
        · exact h ▸ hle
        · exact hmin w h
      · intro h
        exact absurd h (ne_of_lt (lt_of_le_of_lt hle hlt))
      · intro w hw hpw
        rcases List.mem_cons.mp hw with h | h
        · subst h; exact htie hpw.symm
        · exact hties w h hpw
    · by_cases heq : v.priority = candidate.priority
      · by_cases hlen : v.voice_length > candidate.voice_length
        · have hstep : stealLoop (v :: rest) candidate candidate.priority =
              stealLoop rest v v.priority := by
            rw [stealLoop, if_neg hlt, if_pos heq, if_pos hlen, heq]
          obtain ⟨hmem, hle, hmin, htie, hties⟩ := ih v
          rw [hstep]
          refine ⟨?_, ?_, ?_, ?_, ?_⟩
          · rcases hmem with h | h
            · exact Or.inr (List.mem_cons.mpr (Or.inl h))
            · exact Or.inr (List.mem_cons_of_mem v h)
          · exact heq ▸ hle
          · intro w hw
            rcases List.mem_cons.mp hw with h | h
            · exact h ▸ hle
            · exact hmin w h
          · intro h
            exact le_trans (le_of_lt hlen) (htie (heq ▸ h))
          · intro w hw hpw
            rcases List.mem_cons.mp hw with h | h
            · subst h; exact htie hpw.symm
            · exact hties w h hpw
        · have hstep : stealLoop (v :: rest) candidate candidate.priority =
              stealLoop rest candidate candidate.priority := by
            rw [stealLoop, if_neg hlt, if_pos heq, if_neg hlen]
          obtain ⟨hmem, hle, hmin, htie, hties⟩ := ih candidate
          rw [hstep]
          refine ⟨?_, ?_, ?_, ?_, ?_⟩
          · rcases hmem with h | h
            · exact Or.inl h
            · exact Or.inr (List.mem_cons_of_mem v h)
          · exact hle
          · intro w hw
            rcases List.mem_cons.mp hw with h | h
            · exact h ▸ (heq ▸ hle)
            · exact hmin w h
          · exact htie
          · intro w hw hpw
            rcases List.mem_cons.mp hw with h | h
            · subst h
              have : candidate.voice_length ≤
                  (stealLoop rest candidate candidate.priority).voice_length :=
                htie (heq ▸ hpw).symm
              omega
            · exact hties w h hpw
      · have hgt : candidate.priority < v.priority :=
          lt_of_le_of_ne (not_lt.mp hlt) (Ne.symm heq)
        have hstep : stealLoop (v :: rest) candidate candidate.priority =
            stealLoop rest candidate candidate.priority := by
          rw [stealLoop, if_neg hlt, if_neg heq]
        obtain ⟨hmem, hle, hmin, htie, hties⟩ := ih candidate
        rw [hstep]
        refine ⟨?_, ?_, ?_, ?_, ?_⟩
        · rcases hmem with h | h
          · exact Or.inl h
          · exact Or.inr (List.mem_cons_of_mem v h)
        · exact hle
        · intro w hw
          rcases List.mem_cons.mp hw with h | h
          · exact h ▸ le_of_lt (lt_of_le_of_lt hle hgt)
          · exact hmin w h
        · exact htie
        · intro w hw hpw
          rcases List.mem_cons.mp hw with h | h
          · subst h
            exact absurd hpw (ne_of_gt (lt_of_le_of_lt hle hgt))
          · exact hties w h hpw

/-- C6: when the pool is full and no exclusive-class voice was reused, the
stolen voice is an active voice of minimum priority, and among the voices
attaining that minimum priority it has the greatest `voice_length` (it is
the oldest).  The hypothesis that every priority lies below the sentinel
`1000000.0` always holds in the program: a voice's priority is either 0 or
its volume envelope's priority, which is a stage constant in `{0,…,4}` plus
an envelope value in `[0, 1]`. -/
theorem steal_picks_lowest_priority_oldest (voices : List VoiceInfo)
    (hne : voices ≠ [])
    (hbound : ∀ v ∈ voices, v.priority < 1000000) :
    steal voices ∈ voices ∧
    (∀ v ∈ voices, (steal voices).priority ≤ v.priority) ∧
    (∀ v ∈ voices, v.priority = (steal voices).priority →
      v.voice_length ≤ (steal voices).voice_length) := by
  obtain ⟨v0, rest, rfl⟩ := List.exists_cons_of_ne_nil hne
  have h0 : v0.priority < 1000000 := hbound v0 (List.mem_cons_self v0 rest)
  have hsteal : steal (v0 :: rest) = stealLoop rest v0 v0.priority := by
    rw [steal, List.headD_cons, stealLoop, if_pos h0]
  obtain ⟨hmem, hle, hmin, htie, hties⟩ := stealLoop_invariant rest v0
  rw [hsteal]
  refine ⟨?_, ?_, ?_⟩
  · rcases hmem with h | h
    · exact List.mem_cons.mpr (Or.inl h)
    · exact List.mem_cons_of_mem v0 h
  · intro w hw
    rcases List.mem_cons.mp hw with h | h
    · subst h; exact hle
    · exact hmin w h
  · intro w hw hpw
    rcases List.mem_cons.mp hw with h | h
    · subst h; exact htie hpw.symm
    · exact hties w h hpw

/-- Witness for C6: in a full pool where the minimum priority 1 is attained
twice, the voice with the greater `voice_length` (9) is selected. -/
theorem steal_picks_lowest_priority_oldest_witness :
    steal [⟨3, 5⟩, ⟨1, 2⟩, ⟨1, 9⟩, ⟨2, 100⟩] ∈
        [(⟨3, 5⟩ : VoiceInfo), ⟨1, 2⟩, ⟨1, 9⟩, ⟨2, 100⟩] ∧
    (∀ v ∈ [(⟨3, 5⟩ : VoiceInfo), ⟨1, 2⟩, ⟨1, 9⟩, ⟨2, 100⟩],
      (steal [⟨3, 5⟩, ⟨1, 2⟩, ⟨1, 9⟩, ⟨2, 100⟩]).priority ≤ v.priority) ∧
    (∀ v ∈ [(⟨3, 5⟩ : VoiceInfo), ⟨1, 2⟩, ⟨1, 9⟩, ⟨2, 100⟩],
      v.priority = (steal [⟨3, 5⟩, ⟨1, 2⟩, ⟨1, 9⟩, ⟨2, 100⟩]).priority →
      v.voice_length ≤ (steal [⟨3, 5⟩, ⟨1, 2⟩, ⟨1, 9⟩, ⟨2, 100⟩]).voice_length) :=
  steal_picks_lowest_priority_oldest [⟨3, 5⟩, ⟨1, 2⟩, ⟨1, 9⟩, ⟨2, 100⟩]
    (by decide) (by decide)

/-- `defaultFold` on an empty list. -/
theorem defaultFold_nil (n : Nat) (acc : Nat × Option Nat) :
    defaultFold [] n acc = acc := rfl

/-- `defaultFold` unfolds one enumeration step. -/
theorem defaultFold_cons (p : Nat × Nat) (l : List (Nat × Nat)) (n : Nat)
    (acc : Nat × Option Nat) :
    defaultFold (p :: l) n acc =
      defaultFold l (n + 1)
        (if preset_id p < acc.1 then (preset_id p, some n) else acc) := by
  rw [defaultFold, List.enumFrom_cons, List.foldl_cons, defaultFold]

/-- `default_preset` is the second component of `defaultFold` started at
position 0 with the `10000000000` sentinel. -/
theorem default_preset_eq_defaultFold (presets : List (Nat × Nat)) :
    default_preset presets = (defaultFold presets 0 (10000000000, none)).2 := rfl

/-- The `_default_preset` fold: starting from a running minimum `mt` and
candidate `mb`, it returns `(mt, mb)` unless some preset id improves on
`mt`, in which case it returns the least preset id together with the
position (offset by the enumeration start `n`) of its first holder. -/
theorem defaultFold_spec (l : List (Nat × Nat)) :
    ∀ (n : Nat) (mt : Nat) (mb : Option Nat),
      (defaultFold l n (mt, mb)).1 ≤ mt ∧
      (∀ p ∈ l, (defaultFold l n (mt, mb)).1 ≤ preset_id p) ∧
      ((defaultFold l n (mt, mb)).1 = mt → defaultFold l n (mt, mb) = (mt, mb)) ∧
      ((defaultFold l n (mt, mb)).1 < mt →
        ∃ k : Fin l.length,
          (defaultFold l n (mt, mb)).2 = some (n + (k : Nat)) ∧
          preset_id (l.get k) = (defaultFold l n (mt, mb)).1) := by
  induction l with
  | nil =>
    intro n mt mb
    refine ⟨le_refl _, by simp, fun _ => rfl, fun h => absurd h (lt_irrefl mt)⟩
  | cons p l ih =>
    intro n mt mb
    by_cases hlt : preset_id p < mt
    · rw [defaultFold_cons, if_pos hlt]
      obtain ⟨ih1, ih2, ih3, ih4⟩ := ih (n + 1) (preset_id p) (some n)
      refine ⟨le_of_lt (lt_of_le_of_lt ih1 hlt), ?_, ?_, ?_⟩
      · intro q hq
        rcases List.mem_cons.mp hq with h | h
        · subst h; exact ih1
        · exact ih2 q h
      · intro h
        exact absurd h (ne_of_lt (lt_of_le_of_lt ih1 hlt))
      · intro _
        rcases lt_or_eq_of_le ih1 with h | h
        · obtain ⟨k, hk1, hk2⟩ := ih4 h
          refine ⟨k.succ, ?_, ?_⟩
          · rw [hk1, Fin.val_succ]; congr 1; omega
          · simpa using hk2
        · refine ⟨⟨0, by simp⟩, ?_, ?_⟩
          · rw [ih3 h]; simp
          · rw [ih3 h]; simpa using h.symm
    · rw [defaultFold_cons, if_neg hlt]
      obtain ⟨ih1, ih2, ih3, ih4⟩ := ih (n + 1) mt mb
      refine ⟨ih1, ?_, ih3, ?_⟩
      · intro q hq
        rcases List.mem_cons.mp hq with h | h
        · subst h; exact le_trans ih1 (not_lt.mp hlt)
        · exact ih2 q h
      · intro h
        obtain ⟨k, hk1, hk2⟩ := ih4 h
        refine ⟨k.succ, ?_, ?_⟩
        · rw [hk1, Fin.val_succ]; congr 1; omega
        · simpa using hk2

/-- `_default_preset` after `Synthesizer.__init__`: when the soundfont has
at least one preset and every preset id is below the `10000000000` sentinel
(always true: ids are `(bank << 16) | patch` with 16-bit bank and patch,
hence below `2^32`), the default preset is the first preset holding the
smallest preset id. -/
theorem default_preset_is_min (presets : List (Nat × Nat)) (hne : presets ≠ [])
    (hid : ∀ p ∈ presets, preset_id p < 10000000000) :
    ∃ k : Fin presets.length, default_preset presets = some (k : Nat) ∧
      ∀ p ∈ presets, preset_id (presets.get k) ≤ preset_id p := by
  obtain ⟨p0, rest, rfl⟩ := List.exists_cons_of_ne_nil hne
  obtain ⟨h1, h2, _h3, h4⟩ := defaultFold_spec (p0 :: rest) 0 10000000000 none
  have hlt : (defaultFold (p0 :: rest) 0 (10000000000, none)).1 < 10000000000 :=
    lt_of_le_of_lt (h2 p0 (List.mem_cons_self p0 rest))
      (hid p0 (List.mem_cons_self p0 rest))
  obtain ⟨k, hk1, hk2⟩ := h4 hlt
  refine ⟨k, ?_, ?_⟩
  · rw [default_preset_eq_defaultFold, hk1]
    simp
  · intro p hp
    rw [hk2]
    exact h2 p hp

/-- C5: the preset used by `note_on` with positive velocity on a valid
channel.  With the lookup dictionary and default preset built by
`Synthesizer.__init__`: (1) if `(bank << 16) | patch` is in the lookup,
that preset is used; (2) otherwise the fallback id — `patch` (bank 0) when
`bank < 128`, else `(128 << 16) | 0` — is tried; (3) when the fallback id
is also absent, the default preset is used, and it is a loaded preset with
the smallest preset id. -/
theorem note_on_preset_selection (presets : List (Nat × Nat))
    (bank patch : Nat) (hne : presets ≠ [])
    (hid : ∀ p ∈ presets, preset_id p < 10000000000) :
    (∀ i, preset_lookup presets ((bank <<< 16) ||| patch) = some i →
      select_preset presets bank patch = some i) ∧
    (preset_lookup presets ((bank <<< 16) ||| patch) = none →
      ∀ i, preset_lookup presets
          (if bank < 128 then patch else 128 <<< 16) = some i →
        select_preset presets bank patch = some i) ∧
    (preset_lookup presets ((bank <<< 16) ||| patch) = none →
      preset_lookup presets (if bank < 128 then patch else 128 <<< 16) = none →
      ∃ k : Fin presets.length, select_preset presets bank patch = some (k : Nat) ∧
        ∀ p ∈ presets, preset_id (presets.get k) ≤ preset_id p) := by
  refine ⟨?_, ?_, ?_⟩
  · intro i hi
    rw [select_preset, hi]
  · intro hmiss i hi
    rw [select_preset, hmiss]
    simp only [hi]
  · intro hmiss hgm
    obtain ⟨k, hk1, hk2⟩ := default_preset_is_min presets hne hid
    refine ⟨k, ?_, hk2⟩
    rw [select_preset, hmiss]
    simp only [hgm, hk1]

/-- Witness for C5: a two-preset soundfont `[(0, 5), (128, 0)]`.  Bank 200,
patch 9 misses the lookup of `(200 << 16) | 9` and, being a drum bank
(`bank ≥ 128`), falls back to the standard drum kit `(128 << 16) | 0`,
preset index 1. -/
theorem note_on_preset_selection_witness :
    select_preset [(0, 5), (128, 0)] 200 9 = some 1 := by
  have h := (note_on_preset_selection [(0, 5), (128, 0)] 200 9
    (by decide) (by decide)).2.1 (by decide) 1 (by decide)
  exact h

/-- The copy loop never changes the buffer length. -/
theorem writeRange_length :
    ∀ (n : Nat) (dst : List ℚ) (p : Nat) (src : List ℚ) (sp : Nat),
      (writeRange dst p src sp n).length = dst.length := by
  intro n
  induction n with
  | zero => intro dst p src sp; rfl
  | succ n ih =>
    intro dst p src sp
    rw [writeRange, ih, List.length_set]

/-- The copy loop overwrites exactly the `n` positions starting at `p`,
leaving the prefix and the suffix of the destination intact. -/
theorem writeRange_exists :
    ∀ (n : Nat) (dst : List ℚ) (p : Nat) (src : List ℚ) (sp : Nat),
      p + n ≤ dst.length →
      ∃ w : List ℚ, w.length = n ∧
        writeRange dst p src sp n = dst.take p ++ w ++ dst.drop (p + n) := by
  intro n
  induction n with
  | zero =>
    intro dst p src sp _
    exact ⟨[], rfl, by simp [writeRange]⟩
  | succ n ih =>
    intro dst p src sp h
    have hp : p < dst.length := by omega
    have hlenA : (dst.take p).length = p := by
      rw [List.length_take]; omega
    obtain ⟨w, hwlen, hw⟩ := ih (dst.set p (src.getD sp 0)) (p + 1) src (sp + 1)
      (by rw [List.length_set]; omega)
    refine ⟨src.getD sp 0 :: w, by simp [hwlen], ?_⟩
    rw [writeRange, hw, List.set_eq_take_append_cons_drop, if_pos hp]
    have h1 : (dst.take p ++ src.getD sp 0 :: dst.drop (p + 1)).take (p + 1) =
        dst.take p ++ [src.getD sp 0] := by
      rw [List.take_append_eq_append_take, hlenA,
        List.take_of_length_le (by rw [hlenA]; omega)]
      have hone : p + 1 - p = 1 := by omega
      rw [hone]
      simp
    have h2 : (dst.take p ++ src.getD sp 0 :: dst.drop (p + 1)).drop (p + 1 + n) =
        dst.drop (p + (n + 1)) := by
      rw [List.drop_append_eq_append_drop, hlenA,
        List.drop_eq_nil_of_le (by rw [hlenA]; omega :
          (dst.take p).length ≤ p + 1 + n)]
      have hone : p + 1 + n - p = n + 1 := by omega
      rw [hone]
      simp only [List.nil_append, List.drop_succ_cons, List.drop_drop]
      congr 1
      omega
    rw [h1, h2]
    simp

/-- Taking back the overwritten span recovers the prefix and the patch. -/
theorem take_of_overwrite (L w : List ℚ) (q rem : Nat)
    (hq : q ≤ L.length) (hw : w.length = rem) :
    (L.take q ++ w ++ L.drop (q + rem)).take (q + rem) = L.take q ++ w := by
  have hA : (L.take q).length = q := by rw [List.length_take]; omega
  rw [List.append_assoc, List.take_append_eq_append_take, hA,
    List.take_of_length_le (by rw [hA]; omega)]
  have hc : q + rem - q = rem := by omega
  rw [hc, List.take_left' hw]

/-- Dropping past the overwritten span recovers the original suffix. -/
theorem drop_of_overwrite (L w : List ℚ) (q rem tot : Nat)
    (hq : q ≤ L.length) (hw : w.length = rem) (htot : q + rem ≤ tot) :
    (L.take q ++ w ++ L.drop (q + rem)).drop tot = L.drop tot := by
  have hA : (L.take q).length = q := by rw [List.length_take]; omega
  rw [List.append_assoc, List.drop_append_eq_append_drop, hA,
    List.drop_eq_nil_of_le (by rw [hA]; omega), List.nil_append,
    List.drop_append_eq_append_drop,
    List.drop_eq_nil_of_le (by rw [hw]; omega), List.nil_append, hw,
    List.drop_drop]
  congr 1
  omega

/-- The `while wrote < count` loop of `render` fills exactly the positions
`offset + wrote … offset + count - 1` of both buffers and leaves everything
else as it was; `d` bounds the number of samples still to write. -/
theorem renderLoop_writes (block_size : Nat) (hbs : 0 < block_size)
    (blocks : Nat → List ℚ × List ℚ) (offset count : Nat) :
    ∀ (d wrote rd bc : Nat) (xl xr L R : List ℚ),
      count - wrote ≤ d →
      wrote ≤ count → rd ≤ block_size →
      offset + count ≤ L.length → offset + count ≤ R.length →
      ∃ wl wr : List ℚ,
        wl.length = count - wrote ∧ wr.length = count - wrote ∧
        (renderLoop block_size blocks offset count wrote rd bc xl xr L R).left =
          L.take (offset + wrote) ++ wl ++ L.drop (offset + count) ∧
        (renderLoop block_size blocks offset count wrote rd bc xl xr L R).right =
          R.take (offset + wrote) ++ wr ++ R.drop (offset + count) := by
  intro d
  induction d with
  | zero =>
    intro wrote rd bc xl xr L R hd hw _ hL hR
    have heq : wrote = count := by omega
    rw [renderLoop, dif_neg (by omega : ¬ wrote < count)]
    exact ⟨[], [], by simp; omega, by simp; omega,
      by simp [heq, List.take_append_drop],
      by simp [heq, List.take_append_drop]⟩
  | succ d ih =>
    intro wrote rd bc xl xr L R hd hw hrd hL hR
    by_cases hlt : wrote < count
    · rw [renderLoop, dif_pos hlt]
      by_cases hrefresh : rd = block_size
      · rw [if_pos hrefresh]
        dsimp only
        set rem := min (block_size - 0) (count - wrote) with hrem
        have hrem1 : 1 ≤ rem := by omega
        rw [dif_neg (by omega : ¬ rem = 0)]
        obtain ⟨w1, hw1len, hw1⟩ := writeRange_exists rem L (offset + wrote)
          (blocks bc).1 0 (by omega)
        obtain ⟨w2, hw2len, hw2⟩ := writeRange_exists rem R (offset + wrote)
          (blocks bc).2 0 (by omega)
        obtain ⟨wl, wr, hwllen, hwrlen, hwl, hwr⟩ :=
          ih (wrote + rem) (0 + rem) (bc + 1) (blocks bc).1 (blocks bc).2
            (writeRange L (offset + wrote) (blocks bc).1 0 rem)
            (writeRange R (offset + wrote) (blocks bc).2 0 rem)
            (by omega) (by omega) (by omega)
            (by rw [writeRange_length]; omega)
            (by rw [writeRange_length]; omega)
        have hassoc : offset + (wrote + rem) = offset + wrote + rem := by omega
        refine ⟨w1 ++ wl, w2 ++ wr, ?_, ?_, ?_, ?_⟩
        · rw [List.length_append]; omega
        · rw [List.length_append]; omega
        · rw [hwl, hw1, hassoc,
            take_of_overwrite L w1 (offset + wrote) rem (by omega) hw1len,
            drop_of_overwrite L w1 (offset + wrote) rem (offset + count)
              (by omega) hw1len (by omega)]
          simp [List.append_assoc]
        · rw [hwr, hw2, hassoc,
            take_of_overwrite R w2 (offset + wrote) rem (by omega) hw2len,
            drop_of_overwrite R w2 (offset + wrote) rem (offset + count)
              (by omega) hw2len (by omega)]
          simp [List.append_assoc]
      · rw [if_neg hrefresh]
        dsimp only
        set rem := min (block_size - rd) (count - wrote) with hrem
        have hrdlt : rd < block_size := by omega
        have hrem1 : 1 ≤ rem := by omega
        rw [dif_neg (by omega : ¬ rem = 0)]
        obtain ⟨w1, hw1len, hw1⟩ := writeRange_exists rem L (offset + wrote)
          xl rd (by omega)
        obtain ⟨w2, hw2len, hw2⟩ := writeRange_exists rem R (offset + wrote)
          xr rd (by omega)
        obtain ⟨wl, wr, hwllen, hwrlen, hwl, hwr⟩ :=
          ih (wrote + rem) (rd + rem) bc xl xr
            (writeRange L (offset + wrote) xl rd rem)
            (writeRange R (offset + wrote) xr rd rem)
            (by omega) (by omega) (by omega)
            (by rw [writeRange_length]; omega)
            (by rw [writeRange_length]; omega)
        have hassoc : offset + (wrote + rem) = offset + wrote + rem := by omega
        refine ⟨w1 ++ wl, w2 ++ wr, ?_, ?_, ?_, ?_⟩
        · rw [List.length_append]; omega
        · rw [List.length_append]; omega
        · rw [hwl, hw1, hassoc,
            take_of_overwrite L w1 (offset + wrote) rem (by omega) hw1len,
            drop_of_overwrite L w1 (offset + wrote) rem (offset + count)
              (by omega) hw1len (by omega)]
          simp [List.append_assoc]
        · rw [hwr, hw2, hassoc,
            take_of_overwrite R w2 (offset + wrote) rem (by omega) hw2len,
            drop_of_overwrite R w2 (offset + wrote) rem (offset + count)
              (by omega) hw2len (by omega)]
          simp [List.append_assoc]
    · rw [renderLoop, dif_neg hlt]
      have heq : wrote = count := by omega
      exact ⟨[], [], by simp; omega, by simp; omega,
        by simp [heq, List.take_append_drop],
        by simp [heq, List.take_append_drop]⟩

/-- C9: `Synthesizer.render` raises when the left and right buffers differ
in length, and raises when `offset` is given without `count`; in both
cases it returns before writing a sample or moving any state.  Otherwise
(for a real synthesizer: `block_size > 0` and the read cursor within the
block) it writes exactly `count` samples — `count` defaulting to the buffer
length — into each buffer starting at `offset`, leaving both buffers
otherwise unchanged. -/
theorem render_spec (block_size : Nat) (blocks : Nat → List ℚ × List ℚ)
    (block_read block_count : Nat) (bl br left right : List ℚ)
    (offset count : Option Nat) :
    (left.length ≠ right.length →
      render block_size blocks block_read block_count bl br left right
          offset count =
        .error "The output buffers for the left and right must be the same length.") ∧
    (left.length = right.length → ∀ o, offset = some o → count = none →
      render block_size blocks block_read block_count bl br left right
          offset count =
        .error "count must be set if offset is set.") ∧
    (left.length = right.length →
      (offset = none ∨ ∃ c, count = some c) →
      0 < block_size → block_read ≤ block_size →
      offset.getD 0 + count.getD left.length ≤ left.length →
      ∃ (res : RenderResult) (wl wr : List ℚ),
        render block_size blocks block_read block_count bl br left right
            offset count = .ok res ∧
        wl.length = count.getD left.length ∧
        wr.length = count.getD left.length ∧
        res.left = left.take (offset.getD 0) ++ wl ++
          left.drop (offset.getD 0 + count.getD left.length) ∧
        res.right = right.take (offset.getD 0) ++ wr ++
          right.drop (offset.getD 0 + count.getD left.length)) := by
  refine ⟨?_, ?_, ?_⟩
  · intro hne
    rw [render, if_pos hne]
  · intro heq o ho hc
    subst ho; subst hc
    rw [render, if_neg (by omega), if_pos (by simp)]
  · intro heq hshape hbs hrd hbound
    have hstep : render block_size blocks block_read block_count bl br left right
        offset count =
        .ok (renderLoop block_size blocks (offset.getD 0)
          (count.getD left.length) 0 block_read block_count bl br left right) := by
      rw [render, if_neg (by omega), if_neg (by
        rcases hshape with h | ⟨c, h⟩ <;> simp [h])]
    obtain ⟨wl, wr, hwllen, hwrlen, hwl, hwr⟩ :=
      renderLoop_writes block_size hbs blocks (offset.getD 0)
        (count.getD left.length) (count.getD left.length) 0 block_read
        block_count bl br left right (by omega) (by omega) hrd
        (by omega) (by omega)
    refine ⟨_, wl, wr, hstep, by omega, by omega, ?_, ?_⟩
    · rw [hwl]; simp
    · rw [hwr]; simp

/-- Witness for C9: with block size 2 and a constant block oracle, a
length-mismatch call and an `offset`-without-`count` call both raise, and a
well-formed call on 3-sample buffers with `offset = 1`, `count = 2` writes
exactly 2 samples starting at position 1. -/
theorem render_spec_witness :
    (render 2 (fun _ => ([1, 2], [3, 4])) 2 0 [0, 0] [0, 0] [0, 0, 0] [0, 0]
        none none =
      .error "The output buffers for the left and right must be the same length.") ∧
    (render 2 (fun _ => ([1, 2], [3, 4])) 2 0 [0, 0] [0, 0] [0, 0, 0] [0, 0, 0]
        (some 1) none =
      .error "count must be set if offset is set.") ∧
    (∃ (res : RenderResult) (wl wr : List ℚ),
      render 2 (fun _ => ([1, 2], [3, 4])) 2 0 [0, 0] [0, 0] [0, 0, 0] [0, 0, 0]
          (some 1) (some 2) = .ok res ∧
      wl.length = 2 ∧ wr.length = 2 ∧
      res.left = [(0 : ℚ)] ++ wl ++ [] ∧
      res.right = [(0 : ℚ)] ++ wr ++ []) := by
  refine ⟨?_, ?_, ?_⟩
  · exact (render_spec 2 (fun _ => ([1, 2], [3, 4])) 2 0 [0, 0] [0, 0]
      [0, 0, 0] [0, 0] none none).1 (by decide)
  · exact (render_spec 2 (fun _ => ([1, 2], [3, 4])) 2 0 [0, 0] [0, 0]
      [0, 0, 0] [0, 0, 0] (some 1) none).2.1 rfl 1 rfl rfl
  · have h := (render_spec 2 (fun _ => ([1, 2], [3, 4])) 2 0 [0, 0] [0, 0]
      [0, 0, 0] [0, 0, 0] (some 1) (some 2)).2.2 rfl (Or.inr ⟨2, rfl⟩)
      (by decide) (by decide) (by decide)
    simpa using h

/-- The minimum scan of `_merge_tracks` against the spec's description:
when no track has a pending event the accumulator pair survives; otherwise,
writing `m` for the least pending head tick, the scan leaves `(mt, mi)`
untouched when `m` fails to beat the running minimum `mt`, and otherwise
returns `m` together with the position (relative to the enumeration start
`ch`) of the first track whose head tick is `m`. -/
theorem scanMinGo_spec (ts : List Track) :
    ∀ (ch : Nat) (mt mi : Int),
      ((ts.filterMap headTick).min? = none → scanMinGo ts ch mt mi = (mt, mi)) ∧
      (∀ m : Int, (ts.filterMap headTick).min? = some m →
        (¬ m < mt → scanMinGo ts ch mt mi = (mt, mi)) ∧
        (m < mt → ∃ j : Nat,
          ts.findIdx? (fun tr => headTick tr == some m) ch = some j ∧
          scanMinGo ts ch mt mi = (m, (j : Int)) ∧ ch ≤ j ∧
          j - ch < ts.length ∧
          ∃ msg tl, ts.getD (j - ch) [] = (msg, m) :: tl)) := by
  induction ts with
  | nil =>
    intro ch mt mi
    refine ⟨fun _ => rfl, fun m hm => ?_⟩
    simp at hm
  | cons tr rest ih =>
    intro ch mt mi
    cases tr with
    | nil =>
      have hscan : scanMinGo ([] :: rest) ch mt mi =
          scanMinGo rest (ch + 1) mt mi := rfl
      have hfm : (([] : Track) :: rest).filterMap headTick =
          rest.filterMap headTick :=
        List.filterMap_cons_none rfl
      have hfind : ∀ m : Int,
          (([] : Track) :: rest).findIdx? (fun tr => headTick tr == some m) ch =
            rest.findIdx? (fun tr => headTick tr == some m) (ch + 1) := by
        intro m
        rw [List.findIdx?_cons, if_neg (by simp [headTick])]
      constructor
      · intro hnone
        rw [hscan]
        exact (ih (ch + 1) mt mi).1 (hfm ▸ hnone)
      · intro m hm
        obtain ⟨h1, h2⟩ := (ih (ch + 1) mt mi).2 m (hfm ▸ hm)
        constructor
        · intro hge
          rw [hscan]
          exact h1 hge
        · intro hlt
          obtain ⟨j, hfind2, hscan2, hchle, hjlen, msg, tl, hget⟩ := h2 hlt
          refine ⟨j, ?_, ?_, by omega, by simp; omega, msg, tl, ?_⟩
          · rw [hfind m, hfind2]
          · rw [hscan, hscan2]
          · have hidx : j - ch = (j - (ch + 1)) + 1 := by omega
            rw [hidx, List.getD_cons_succ, hget]
    | cons e tl0 =>
      obtain ⟨msg0, t0⟩ := e
      have hfm : (((msg0, t0) :: tl0) :: rest).filterMap headTick =
          t0 :: rest.filterMap headTick :=
        List.filterMap_cons_some rfl
      have hmin : ((((msg0, t0) :: tl0) :: rest).filterMap headTick).min? =
          some ((rest.filterMap headTick).min?.elim t0 (min t0)) := by
        rw [hfm, List.min?_cons]
      have hscan_lt : t0 < mt → scanMinGo (((msg0, t0) :: tl0) :: rest) ch mt mi =
          scanMinGo rest (ch + 1) t0 (ch : Int) := by
        intro h
        show (if t0 < mt then scanMinGo rest (ch + 1) t0 (ch : Int)
          else scanMinGo rest (ch + 1) mt mi) = _
        rw [if_pos h]
      have hscan_ge : ¬ t0 < mt →
          scanMinGo (((msg0, t0) :: tl0) :: rest) ch mt mi =
            scanMinGo rest (ch + 1) mt mi := by
        intro h
        show (if t0 < mt then scanMinGo rest (ch + 1) t0 (ch : Int)
          else scanMinGo rest (ch + 1) mt mi) = _
        rw [if_neg h]
      refine ⟨fun hnone => by rw [hmin] at hnone; exact absurd hnone (by simp),
        fun m hm => ?_⟩
      rw [hmin] at hm
      have hm2 := Option.some.inj hm
      cases hhs : (rest.filterMap headTick).min? with
      | none =>
        rw [hhs] at hm2
        simp only [Option.elim] at hm2
        subst hm2
        constructor
        · intro hge
          rw [hscan_ge hge]
          exact ((ih (ch + 1) mt mi).1 hhs)
        · intro hlt
          refine ⟨ch, ?_, ?_, le_refl ch, by simp, msg0, tl0, by simp⟩
          · rw [List.findIdx?_cons, if_pos (by simp [headTick])]
          · rw [hscan_lt hlt]
            exact (ih (ch + 1) t0 (ch : Int)).1 hhs
      | some mr =>
        rw [hhs] at hm2
        simp only [Option.elim] at hm2
        by_cases hlt : t0 < mt
        · by_cases hmr : mr < t0
          · have hmeq : m = mr := by rw [← hm2]; exact min_eq_right (le_of_lt hmr)
            subst hmeq
            constructor
            · intro hge
              exact absurd (lt_trans hmr hlt) hge
            · intro _
              obtain ⟨j, hfind2, hscan2, hchle, hjlen, msg, tl, hget⟩ :=
                ((ih (ch + 1) t0 (ch : Int)).2 m hhs).2 hmr
              refine ⟨j, ?_, ?_, by omega, by simp; omega, msg, tl, ?_⟩
              · rw [List.findIdx?_cons,
                  if_neg (by simp [headTick]; omega), hfind2]
              · rw [hscan_lt hlt, hscan2]
              · have hidx : j - ch = (j - (ch + 1)) + 1 := by omega
                rw [hidx, List.getD_cons_succ, hget]
          · have hmeq : m = t0 := by rw [← hm2]; exact min_eq_left (not_lt.mp hmr)
            subst hmeq
            constructor
            · intro hge
              exact absurd hlt hge
            · intro _
              refine ⟨ch, ?_, ?_, le_refl ch, by simp, msg0, tl0, by simp⟩
              · rw [List.findIdx?_cons, if_pos (by simp [headTick])]
              · rw [hscan_lt hlt]
                exact ((ih (ch + 1) m (ch : Int)).2 mr hhs).1 hmr
        · constructor
          · intro hge
            rw [hscan_ge hlt]
            have hmrge : ¬ mr < mt := by
              intro hc
              exact hge (lt_of_le_of_lt (hm2 ▸ min_le_right t0 mr) hc)
            exact ((ih (ch + 1) mt mi).2 mr hhs).1 hmrge
          · intro hmlt
            have hmeq : m = mr := by
              rcases min_choice t0 mr with h | h
              · exfalso
                apply hlt
                have ht : t0 = m := by rw [← hm2, h]
                rw [ht]
                exact hmlt
              · rw [← hm2, h]
            subst hmeq
            have hmrlt : m < mt := hmlt
            obtain ⟨j, hfind2, hscan2, hchle, hjlen, msg, tl, hget⟩ :=
              ((ih (ch + 1) mt mi).2 m hhs).2 hmrlt
            refine ⟨j, ?_, ?_, by omega, by simp; omega, msg, tl, ?_⟩
            · rw [List.findIdx?_cons, if_neg (by
                simp [headTick]
                intro hc
                rw [hc] at hlt
                have := hm2 ▸ min_le_right t0 m
                omega), hfind2]
            · rw [hscan_ge hlt, hscan2]
            · have hidx : j - ch = (j - (ch + 1)) + 1 := by omega
              rw [hidx, List.getD_cons_succ, hget]

/-- When every pending tick is below the `10000000000` sentinel, the
source's minimum scan and the spec's "pick the track with the smallest next
tick" agree: either both find no pending event, or both select the same
track index, whose head event is pending. -/
theorem scanMin_cases (tracks : List Track)
    (hb : ∀ tr ∈ tracks, ∀ e ∈ tr, e.2 < 10000000000) :
    ((scanMin tracks).2 < 0 ∧ specNextTrack tracks = none) ∨
    (∃ j : Nat, specNextTrack tracks = some j ∧
      (scanMin tracks).2 = (j : Nat) ∧ j < tracks.length ∧
      ∃ m msg tl, tracks.getD j [] = (msg, m) :: tl) := by
  cases hmq : (tracks.filterMap headTick).min? with
  | none =>
    left
    constructor
    · rw [scanMin, (scanMinGo_spec tracks 0 10000000000 (-1)).1 hmq]
      omega
    · rw [specNextTrack, hmq]
  | some m =>
    right
    have hmlt : m < 10000000000 := by
      have hmem := List.min?_mem min_choice hmq
      obtain ⟨tr, htr, hhead⟩ := List.mem_filterMap.mp hmem
      obtain ⟨e, he, hsnd⟩ := Option.map_eq_some'.mp hhead
      exact hsnd ▸ hb tr htr e (List.mem_of_mem_head? (by rw [he]; rfl))
    obtain ⟨j, hfind, hscan, _, hjlen, msg, tl, hget⟩ :=
      ((scanMinGo_spec tracks 0 10000000000 (-1)).2 m hmq).2 hmlt
    refine ⟨j, ?_, ?_, by omega, m, msg, tl, ?_⟩
    · rw [specNextTrack, hmq]
      exact hfind
    · rw [scanMin, hscan]
    · have hj0 : j - 0 = j := by omega
      rw [← hj0]
      exact hget

/-- The merge loop of `_merge_tracks` agrees step by step with the spec's
description of the merge, for any number of steps, as long as every tick is
below the `10000000000` scan sentinel. -/
theorem mergeGo_eq_spec (resolution : Int) :
    ∀ (fuel : Nat) (tracks : List Track) (ct : Int) (time tempo : ℚ),
      (∀ tr ∈ tracks, ∀ e ∈ tr, e.2 < 10000000000) →
      mergeGo resolution fuel tracks ct time tempo =
        specMergeGo resolution fuel tracks ct time tempo := by
  intro fuel
  induction fuel with
  | zero => intros; rfl
  | succ fuel ih =>
    intro tracks ct time tempo hb
    rcases scanMin_cases tracks hb with ⟨hneg, hnone⟩ |
      ⟨j, hspec, hscan, hjlen, m, msg, tl, hget⟩
    · simp only [mergeGo, specMergeGo, hnone, if_pos hneg]
    · have hjneg : ¬ ((j : Int) < 0) := not_lt.mpr (Int.natCast_nonneg j)
      have h1 : tracks.getD j [] ∈ tracks := by
        rw [List.getD_eq_getElem tracks [] hjlen]
        exact List.getElem_mem hjlen
      rw [hget] at h1
      have hb2 : ∀ tr ∈ tracks.set j tl, ∀ e ∈ tr, e.2 < 10000000000 := by
        intro tr htr e he
        rcases List.mem_or_eq_of_mem_set htr with h | h
        · exact hb tr h e he
        · subst h
          exact hb _ h1 e (List.mem_cons_of_mem _ he)
      have hct : ct + (m - ct) = m := by ring
      have htime : time + 60 / ((resolution : ℚ) * tempo) * ((m - ct : Int) : ℚ) =
          time + ((m : ℚ) - (ct : ℚ)) * 60 / ((resolution : ℚ) * tempo) := by
        push_cast
        ring
      simp only [mergeGo, specMergeGo, hspec, hscan, Int.toNat_natCast, hget,
        if_neg hjneg]
      cases msg with
      | normal channel command data1 data2 =>
        rw [hct, htime, ih (tracks.set j tl) m _ tempo hb2]
      | tempo_change us =>
        rw [hct, htime]
        exact ih (tracks.set j tl) m _ _ hb2
      | end_of_track =>
        rw [hct, htime, ih (tracks.set j tl) m _ tempo hb2]

/-- C7, counterexample: the claim states that during track merging every
non-tempo message is appended to the merged stream paired with its time.
That fails at a reachable input: a track whose (non-tempo) message sits at
tick `10000000000` — ticks are sums of VLQ deltas of up to `2^28 - 1` each,
so a well-formed MTrk reaches this — is never selected by the minimum scan,
whose running minimum starts at the sentinel `10000000000` and only accepts
strictly smaller ticks; the loop breaks out with `min_index = -1` and the
message is silently dropped instead of appended. -/
theorem merge_drops_message_at_sentinel_tick :
    mergeTracks 480 [[(.normal 0 144 60 100, 10000000000)]] = ([], []) ∧
    MidiMsg.normal 0 144 60 100 ∉
      (mergeTracks 480 [[(.normal 0 144 60 100, 10000000000)]]).1 := by
  decide

/-- C7, amended: `_merge_tracks` behaves exactly as the spec describes —
the running tempo starts at 120 BPM, each step advances the running time by
`(next_tick - current_tick) * 60 / (resolution * tempo)`, tempo-change
messages update the running tempo without ever being appended to the merged
stream, and every other message is appended paired with the running time at
its tick — provided every tick is below `10000000000`; at an event with
tick `≥ 10000000000` the source's minimum scan stops early and that event
and everything after it are silently dropped. -/
theorem merge_tracks_follows_spec (resolution : Int) (tracks : List Track)
    (hb : ∀ tr ∈ tracks, ∀ e ∈ tr, e.2 < 10000000000) :
    mergeTracks resolution tracks = specMergeTracks resolution tracks :=
  mergeGo_eq_spec resolution (sumLen tracks) tracks 0 0 120 hb

/-- Witness for C7: a two-track file at resolution 480 — one track with a
note-on, a tempo change to 120000 μs per quarter and an end-of-track, the
other with a note-off between them. -/
theorem merge_tracks_follows_spec_witness :
    mergeTracks 480
      [[(.normal 0 144 60 100, 0), (.tempo_change 500000, 480),
        (.end_of_track, 960)],
       [(.normal 0 128 60 0, 240)]] =
    specMergeTracks 480
      [[(.normal 0 144 60 100, 0), (.tempo_change 500000, 480),
        (.end_of_track, 960)],
       [(.normal 0 128 60 0, 240)]] :=
  merge_tracks_follows_spec 480 _ (by decide)

/-- C10: for a channel index outside `0..len(channels)-1` (the synthesizer
always builds 16 channels), `note_on` with non-zero velocity, `note_off`
and `process_midi_message` all return without running their bodies, leaving
the whole synthesizer state — channels, voices and all — unchanged. -/
theorem out_of_range_channel_is_ignored {V : Type} (s : SynthState V)
    (channel key velocity command data1 data2 : Int)
    (hlen : s.channels.length = 16)
    (hch : channel < 0 ∨ 16 ≤ channel)
    (hvel : 0 < velocity) :
    (∀ body off_body, note_on s channel key velocity body off_body = s) ∧
    (∀ body, note_off s channel key body = s) ∧
    (∀ body, process_midi_message s channel command data1 data2 body = s) := by
  have hguard : ¬(0 ≤ channel ∧ channel < (s.channels.length : Int)) := by
    rw [hlen]; push_cast; omega
  refine ⟨fun body off_body => ?_, fun body => ?_, fun body => ?_⟩
  · rw [note_on, if_neg (by omega), if_pos hguard]
  · rw [note_off, if_pos hguard]
  · rw [process_midi_message, if_pos hguard]

/-- Witness for C10: a concrete 16-channel synthesizer state, channel 16,
key 60, velocity 100, and bodies that would visibly change the state had
they run. -/
theorem out_of_range_channel_is_ignored_witness :
    (note_on (V := Nat) ⟨List.replicate 16 (Channel.reset false), 7⟩ 16 60 100
        (fun st _ _ => ⟨[], st.rest + 1⟩) (fun st _ => ⟨[], st.rest + 2⟩) =
      ⟨List.replicate 16 (Channel.reset false), 7⟩) ∧
    (note_off (V := Nat) ⟨List.replicate 16 (Channel.reset false), 7⟩ 16 60
        (fun st _ => ⟨[], st.rest + 2⟩) =
      ⟨List.replicate 16 (Channel.reset false), 7⟩) ∧
    (process_midi_message (V := Nat)
        ⟨List.replicate 16 (Channel.reset false), 7⟩ 16 0xB0 0x07 0
        (fun st _ _ _ => ⟨[], st.rest + 3⟩) =
      ⟨List.replicate 16 (Channel.reset false), 7⟩) := by
  obtain ⟨h1, h2, h3⟩ := out_of_range_channel_is_ignored (V := Nat)
    ⟨List.replicate 16 (Channel.reset false), 7⟩ 16 60 100 0xB0 0x07 0
    (by simp) (by omega) (by omega)
  exact ⟨h1 _ _, h2 _, h3 _⟩

end MeltySynth
